import Mathlib

/-!
Verification of the well-log viewer's zoom / synchronization / correlation
logic, shallowly embedded from the repository sources
(`Shivam_welltop_linkPro.py`, `blitting.py`, `wellTop_project01.py`).

Data coordinates (depths, axis limits) are modelled as `Int`: every operation
the claims exercise is pure record plumbing plus order comparisons
(`min`/`max`/`sorted`), so the embedding is faithful for any linearly ordered
coordinate type.  Matplotlib canvas redraws, cursors and tick cosmetics carry
no state the claims mention and are dropped; Qt signal connections are
modelled as an explicit per-widget listener list.
-/

namespace WellLog

/-- A zoom rectangle `(xmin, xmax, ymin, ymax)` in data coordinates,
mirroring the 4-tuples stored in `current_zoom_limits`. -/
structure Rect where
  xmin : Int
  xmax : Int
  ymin : Int
  ymax : Int
deriving DecidableEq, Repr

/-- Per-axes limits: `(xlim, ylim)`, each a `(low, high)` pair exactly as
returned by `ax.get_xlim()` / `ax.get_ylim()`. -/
abbrev AxLimits := (Int × Int) × (Int × Int)

/-- A matplotlib mouse event restricted to the fields the zoom logic reads:
whether the event is inside some axes, and its data coordinates. -/
structure MouseEvent where
  inaxes : Bool
  xdata : Int
  ydata : Int
deriving DecidableEq, Repr

/-- A slot connected to a widget's `zoomChanged` signal: either
`WellLogViewer.handleSingleZoom` or `WellLogViewer.handleSyncZoom`. -/
inductive ZoomHandler where
  | single
  | sync
deriving DecidableEq, Repr

/-- State of one `FigureWidget` (one well panel), embedded from
`Shivam_welltop_linkPro.py` lines 60-226.  `rect_active` stands for
`self._rect is not None` (the red drag rectangle patch), `axes` holds each
sub-axes' current `(xlim, ylim)`, and `listeners` records which viewer
handlers are connected to the `zoomChanged` signal. -/
structure FigureWidget where
  well_name : String
  dragging : Bool := false
  press_event : Option (Int × Int) := none
  rect_active : Bool := false
  zoom_mode : Option String := none
  zoom_history : List Rect := []
  initial_limits : Option (List AxLimits) := none
  current_zoom_limits : Option Rect := none
  axes : List AxLimits := []
  listeners : List ZoomHandler := []
deriving DecidableEq, Repr

/-- Python truthiness of `self._initial_limits`: `None` and the empty list
are falsy. -/
def limitsTruthy : Option (List AxLimits) → Bool
  | none => false
  | some L => !L.isEmpty

/-- Embeds `FigureWidget.setZoomMode` (cursor change is cosmetic and dropped). -/
def FigureWidget.setZoomMode (w : FigureWidget) (mode : String) : FigureWidget :=
  { w with zoom_mode := some mode }

/-- Embeds `FigureWidget.onMousePress`: ignored unless the event is inside an axes
and the zoom mode is `"Rectangular"`; otherwise starts a drag and adds the
rubber-band rectangle patch. -/
def FigureWidget.onMousePress (w : FigureWidget) (e : MouseEvent) : FigureWidget :=
  if !e.inaxes || w.zoom_mode ≠ some "Rectangular" then w
  else { w with dragging := true, press_event := some (e.xdata, e.ydata), rect_active := true }

/-- Embeds `FigureWidget.onMouseRelease`: returns the new widget state and whether
the `zoomChanged` signal was emitted.  When a drag is active it stores
`(sorted([x0,x1]), sorted([y0,y1]))` as `current_zoom_limits`, removes the
rubber-band rectangle and emits; there is no check that the press and
release positions differ. -/
def FigureWidget.onMouseRelease (w : FigureWidget) (e : MouseEvent) :
    FigureWidget × Bool :=
  match w.press_event with
  | none => (w, false)
  | some p =>
    if !w.dragging || !e.inaxes then (w, false)
    else if w.rect_active then
      ({ w with
          current_zoom_limits :=
            some ⟨min p.1 e.xdata, max p.1 e.xdata, min p.2 e.ydata, max p.2 e.ydata⟩,
          rect_active := false,
          dragging := false,
          press_event := none }, true)
    else ({ w with dragging := false, press_event := none }, false)

/-- Embeds `FigureWidget.applyZoom`: sets every axes' `xlim` to `(xmin, xmax)` and
`ylim` to `(ymax, ymin)` (inverted for depth plots), and records the rect as
the current zoom. -/
def FigureWidget.applyZoom (w : FigureWidget) (r : Rect) : FigureWidget :=
  { w with
      axes := w.axes.map (fun _ => ((r.xmin, r.xmax), (r.ymax, r.ymin))),
      current_zoom_limits := some r }

/-- Embeds `FigureWidget.recordCurrentZoom`: pushes the *current* zoom limits (as
they are at call time) onto the undo stack; a no-op when there is no current
zoom. -/
def FigureWidget.recordCurrentZoom (w : FigureWidget) : FigureWidget :=
  match w.current_zoom_limits with
  | some r => { w with zoom_history := w.zoom_history ++ [r] }
  | none => w

/-- The `zip(self.figure.axes, self._initial_limits)` loop of
`FigureWidget.resetZoom`: axes paired with a stored limit are restored to
it, axes beyond the stored list keep their limits. -/
def restoreInitial (axes L : List AxLimits) : List AxLimits :=
  (axes.zip L).map Prod.snd ++ axes.drop L.length

/-- Embeds `FigureWidget.resetZoom`: when initial (auto-fit) limits were captured,
restores them, clears the current zoom and empties the undo history;
otherwise does nothing. -/
def FigureWidget.resetZoom (w : FigureWidget) : FigureWidget :=
  match w.initial_limits with
  | none => w
  | some L =>
    if L.isEmpty then w
    else { w with
            axes := restoreInitial w.axes L,
            current_zoom_limits := none,
            zoom_history := [] }

/-- Embeds `FigureWidget.undoZoom`: pops the most recent entry of the undo stack
and re-applies it (returning `true`); on an empty stack it falls back to
`resetZoom` when initial limits were captured, and returns `false`. -/
def FigureWidget.undoZoom (w : FigureWidget) : FigureWidget × Bool :=
  match w.zoom_history.getLast? with
  | some prev =>
    (({ w with zoom_history := w.zoom_history.dropLast }).applyZoom prev, true)
  | none =>
    if limitsTruthy w.initial_limits then (w.resetZoom, false) else (w, false)

/-- State of the `WellLogViewer` main window restricted to the fields the
zoom, axis-linking and load logic read and write.  `wells` is the
`self.wells` dict (well name to the `DEPT` depth column of its data frame,
insertion-ordered), `well_list` is the check-list of wells (name, checked),
`figure_widgets` the `self.figure_widgets` dict values in order. -/
structure Viewer where
  figure_widgets : List FigureWidget := []
  wells : List (String × List Int) := []
  well_list : List (String × Bool) := []
  sync_zoom_enabled : Bool := false
  sync_zoom_limits : Option Rect := none
  single_zoom_limits : Option Rect := none
  current_single_zoom_well : Option String := none
  share_y_axis_enabled : Bool := false
deriving DecidableEq, Repr

/-- Dict access `self.figure_widgets[name]` (widgets are keyed by well
name, so the first match is the entry). -/
def Viewer.findWidget (v : Viewer) (name : String) : Option FigureWidget :=
  v.figure_widgets.find? (fun w => w.well_name = name)

/-- Replace the widget(s) keyed by `name` with `f` applied to them. -/
def Viewer.updateWidget (v : Viewer) (name : String) (f : FigureWidget → FigureWidget) :
    Viewer :=
  { v with figure_widgets :=
      v.figure_widgets.map (fun w => if w.well_name = name then f w else w) }

/-- Embeds `WellLogViewer.handleSyncZoom` (lines 937-952): if the sender has
current zoom limits, store them as the synchronized zoom and apply them,
followed by `recordCurrentZoom`, to *every* widget. -/
def Viewer.handleSyncZoom (v : Viewer) (sender : String) : Viewer :=
  match (v.findWidget sender).bind FigureWidget.current_zoom_limits with
  | none => v
  | some r =>
    { v with
        sync_zoom_limits := some r,
        figure_widgets :=
          v.figure_widgets.map (fun w => (w.applyZoom r).recordCurrentZoom) }

/-- Embeds `WellLogViewer.handleSingleZoom` (lines 954-972): if the sender has
current zoom limits, remember it as the single-zoomed well and apply the
rect, followed by `recordCurrentZoom`, to the sender's widget only. -/
def Viewer.handleSingleZoom (v : Viewer) (sender : String) : Viewer :=
  match (v.findWidget sender).bind FigureWidget.current_zoom_limits with
  | none => v
  | some r =>
    { v with
        current_single_zoom_well := some sender,
        single_zoom_limits := some r,
        figure_widgets :=
          v.figure_widgets.map (fun w =>
            if w.well_name = sender then (w.applyZoom r).recordCurrentZoom else w) }

/-- Emission of a widget's `zoomChanged` signal: run every connected
handler, in connection order. -/
def Viewer.emitZoomChanged (v : Viewer) (sender : String) : Viewer :=
  match v.findWidget sender with
  | none => v
  | some w =>
    w.listeners.foldl
      (fun acc h =>
        match h with
        | ZoomHandler.single => acc.handleSingleZoom sender
        | ZoomHandler.sync => acc.handleSyncZoom sender)
      v

/-- A complete zoom gesture release on the panel of well `sender`: the
widget's `onMouseRelease` runs and, if it emitted `zoomChanged`, the
connected handlers run against the updated viewer state. -/
def Viewer.onZoomGesture (v : Viewer) (sender : String) (e : MouseEvent) : Viewer :=
  match v.findWidget sender with
  | none => v
  | some w =>
    let res := w.onMouseRelease e
    let v' := v.updateWidget sender (fun _ => res.1)
    if res.2 then v'.emitZoomChanged sender else v'

/-- Embeds `WellLogViewer.enableSyncZoom`: sets every widget's zoom mode and
connects `handleSyncZoom` to its `zoomChanged` signal. -/
def Viewer.enableSyncZoom (v : Viewer) : Viewer :=
  { v with figure_widgets :=
      v.figure_widgets.map (fun w =>
        let w' := w.setZoomMode "Rectangular"
        { w' with listeners := w'.listeners ++ [ZoomHandler.sync] }) }

/-- Embeds `WellLogViewer.disableSyncZoom`: sets the zoom mode, disconnects
`handleSyncZoom` (tolerating its absence) and connects
`handleSingleZoom`. -/
def Viewer.disableSyncZoom (v : Viewer) : Viewer :=
  { v with figure_widgets :=
      v.figure_widgets.map (fun w =>
        let w' := w.setZoomMode "Rectangular"
        { w' with listeners :=
            w'.listeners.filter (fun h => h ≠ ZoomHandler.sync) ++ [ZoomHandler.single] }) }

/-- Embeds `WellLogViewer.enableSingleZoom`: sets every widget's zoom mode and
connects `handleSingleZoom`. -/
def Viewer.enableSingleZoom (v : Viewer) : Viewer :=
  { v with figure_widgets :=
      v.figure_widgets.map (fun w =>
        let w' := w.setZoomMode "Rectangular"
        { w' with listeners := w'.listeners ++ [ZoomHandler.single] }) }

/-- Embeds `WellLogViewer.disableSingleZoom` (lines 927-935): disconnects
`handleSingleZoom` from every widget, tolerating widgets where it is not
connected. -/
def Viewer.disableSingleZoom (v : Viewer) : Viewer :=
  { v with figure_widgets :=
      v.figure_widgets.map (fun w =>
        { w with listeners := w.listeners.filter (fun h => h ≠ ZoomHandler.single) }) }

/-- Embeds `WellLogViewer.onSyncZoomToggled` (lines 875-897): records the flag;
when enabling, swaps the listeners to sync mode and, if a single-well zoom
rect was active, promotes it to the synchronized rect and re-applies it
(with `recordCurrentZoom`) to every widget; when disabling, swaps the
listeners back to single mode.  (Menu-item texts are cosmetic and
dropped.) -/
def Viewer.onSyncZoomToggled (v : Viewer) (checked : Bool) : Viewer :=
  let v1 := { v with sync_zoom_enabled := checked }
  if checked then
    let v2 := v1.disableSingleZoom.enableSyncZoom
    match v2.single_zoom_limits with
    | some r =>
      { v2 with
          sync_zoom_limits := some r,
          figure_widgets :=
            v2.figure_widgets.map (fun w => (w.applyZoom r).recordCurrentZoom) }
    | none => v2
  else
    v1.disableSyncZoom.enableSingleZoom

/-- Embeds `WellLogViewer.undoZoom` (lines 974-984). -/
def Viewer.undoZoom (v : Viewer) : Viewer :=
  if v.sync_zoom_enabled then
    { v with figure_widgets := v.figure_widgets.map (fun w => (w.undoZoom).1) }
  else
    match v.current_single_zoom_well with
    | some name => v.updateWidget name (fun w => (w.undoZoom).1)
    | none => v

/-- Embeds `WellLogViewer.resetZoom` (lines 986-999). -/
def Viewer.resetZoom (v : Viewer) : Viewer :=
  if v.sync_zoom_enabled then
    { v with
        figure_widgets := v.figure_widgets.map FigureWidget.resetZoom,
        sync_zoom_limits := none }
  else
    match v.current_single_zoom_well with
    | some name =>
      let v' := v.updateWidget name FigureWidget.resetZoom
      { v' with current_single_zoom_well := none, single_zoom_limits := none }
    | none => v

/-- Embeds `depth.min()` on a pandas series: `none` on an empty column (NaN in
pandas, outside the model; the claims only exercise nonempty data). -/
def listMin : List Int → Option Int
  | [] => none
  | a :: as => some (as.foldl min a)

/-- Embeds `depth.max()` on a pandas series, as `listMin`. -/
def listMax : List Int → Option Int
  | [] => none
  | a :: as => some (as.foldl max a)

/-- Running minimum against `float('inf')`: `none` plays the initial
infinity, so `min(inf, m) = m`. -/
def omin (acc : Option Int) (m : Option Int) : Option Int :=
  match acc, m with
  | none, m => m
  | some a, none => some a
  | some a, some b => some (min a b)

/-- Running maximum against `float('-inf')`, as `omin`. -/
def omax (acc : Option Int) (m : Option Int) : Option Int :=
  match acc, m with
  | none, m => m
  | some a, none => some a
  | some a, some b => some (max a b)

/-- Embeds `self.wells[name]['data']['DEPT']`; `[]` when the well is absent (a
`KeyError` in Python, unreachable from the GUI since selected wells are
always loaded wells). -/
def dataOf (wells : List (String × List Int)) (name : String) : List Int :=
  ((wells.find? (fun p => p.1 = name)).map Prod.snd).getD []

/-- One iteration of the `for well in selected_wells` loop of
`WellLogViewer.synchronizeYAxisLimits`:
`y_min = min(y_min, depth.min()); y_max = max(y_max, depth.max())`. -/
def stepShared (wells : List (String × List Int)) (acc : Option Int × Option Int)
    (name : String) : Option Int × Option Int :=
  (omin acc.1 (listMin (dataOf wells name)), omax acc.2 (listMax (dataOf wells name)))

/-- The accumulation loop of `WellLogViewer.synchronizeYAxisLimits`
(lines 857-864), starting from `(inf, -inf)`. -/
def computeSharedY (wells : List (String × List Int)) (selected : List String) :
    Option Int × Option Int :=
  selected.foldl (stepShared wells) (none, none)

/-- The checked wells of the well list, in list order — the
`selected_wells` comprehension of `synchronizeYAxisLimits`. -/
def Viewer.selectedWells (v : Viewer) : List String :=
  (v.well_list.filter (fun p => p.2)).map Prod.fst

/-- Embeds `WellLogViewer.synchronizeYAxisLimits` (lines 843-873): no-op without
widgets; otherwise computes the shared depth range over the checked wells
and sets every widget's every axes' `ylim` to `(y_max, y_min)` (inverted
for depth).  Tick-label hiding is cosmetic and dropped.  When no checked
well contributes a finite extent Python would set infinite limits — outside
the `Int` model and outside every claim, modelled as no change. -/
def Viewer.synchronizeYAxisLimits (v : Viewer) : Viewer :=
  if v.figure_widgets.isEmpty then v
  else
    match computeSharedY v.wells v.selectedWells with
    | (some y_min, some y_max) =>
      { v with figure_widgets :=
          v.figure_widgets.map (fun w =>
            { w with axes := w.axes.map (fun ax => (ax.1, (y_max, y_min))) }) }
    | _ => v

/-- The `tops1` / `tops2` dict comprehensions of
`WellLogViewer.draw_well_top_connections` (lines 1146-1149): keep the tops
whose name is among the globally selected top names. -/
def selTops (tops : List (String × Int)) (sel : List String) : List (String × Int) :=
  tops.filter (fun p => sel.contains p.1)

/-- Python dict semantics for a `{t: md for t, md in ...}` comprehension:
the value bound to a key is the *last* one listed for it. -/
def dictGet (ps : List (String × Int)) (k : String) : Option Int :=
  ((ps.filter (fun p => p.1 = k)).getLast?).map Prod.snd

/-- Embeds `common_tops = set(tops1.keys()) & set(tops2.keys())` (line 1150), as a
list of names (possibly with duplicates; only membership matters). -/
def commonTops (tops1 tops2 : List (String × Int)) (sel : List String) : List String :=
  ((selTops tops1 sel).map Prod.fst).filter
    (fun t => ((selTops tops2 sel).map Prod.fst).contains t)

/-- The correlation links drawn between an adjacent well pair
(lines 1144-1155): one `(top name, depth in A, depth in B)` per common
selected top name. -/
def linksFor (topsA topsB : List (String × Int)) (sel : List String) :
    List (String × Int × Int) :=
  (commonTops topsA topsB sel).filterMap (fun t =>
    match dictGet (selTops topsA sel) t, dictGet (selTops topsB sel) t with
    | some dA, some dB => some (t, dA, dB)
    | _, _ => none)

/-- The `y_min` half of the manual-limit block of
`FigureWidget.update_plot` (`wellTop_project01.py` lines 147-152): skip
empty text, replace only the lower bound when `float(text)` succeeds, and
swallow a `ValueError` leaving the limits untouched.  `parse` stands for
the external `float()` parser. -/
def applyBoundMin (parse : String → Option Int) (text : String) (ylim : Int × Int) :
    Int × Int :=
  if text ≠ "" then
    match parse text with
    | some v => (v, ylim.2)
    | none => ylim
  else ylim

/-- The `y_max` half of the same block (lines 153-157). -/
def applyBoundMax (parse : String → Option Int) (text : String) (ylim : Int × Int) :
    Int × Int :=
  if text ≠ "" then
    match parse text with
    | some v => (ylim.1, v)
    | none => ylim
  else ylim

/-- The full manual Y-limit block: the `y_max` branch reads the limits as
already updated by the `y_min` branch (`ax.get_ylim()`). -/
def applyTrackYLimits (parse : String → Option Int) (tmin tmax : String)
    (ylim : Int × Int) : Int × Int :=
  applyBoundMax parse tmax (applyBoundMin parse tmin ylim)

/-- Embeds `WellLogViewer.load_las_file` (lines 1288-1313) after the external
parse has produced a well name and its depth data: a well whose name is
already a key of `self.wells` is skipped entirely; otherwise it is added to
the store and appended, unchecked, to the well list. -/
def Viewer.load_las_file (v : Viewer) (well_name : String) (data : List Int) : Viewer :=
  if (v.wells.map Prod.fst).contains well_name then v
  else
    { v with
        wells := v.wells ++ [(well_name, data)],
        well_list := v.well_list ++ [(well_name, false)] }

/-- The rect a release at `(x1, y1)` after a press at `(x0, y0)` stores:
`xmin, xmax = sorted([x0, x1])`, `ymin, ymax = sorted([y0, y1])`. -/
def gestureRect (x0 y0 x1 y1 : Int) : Rect :=
  ⟨min x0 x1, max x0 x1, min y0 y1, max y0 y1⟩

/-- The axes limits `applyZoom r` installs: `xlim = (xmin, xmax)`,
`ylim = (ymax, ymin)`. -/
def zoomLimitsOf (r : Rect) : AxLimits :=
  ((r.xmin, r.xmax), (r.ymax, r.ymin))

/-! Concrete states used to instantiate the theorems below. -/

/-- A freshly drawn panel: auto-fit limits captured, no zoom yet. -/
def panelAuto : FigureWidget :=
  { well_name := "W1",
    zoom_mode := some "Rectangular",
    initial_limits := some [((0, 10), (100, 0))],
    axes := [((0, 10), (100, 0))] }

/-- A first zoom rect. -/
def rectA : Rect := ⟨1, 9, 10, 90⟩

/-- A second, different zoom rect. -/
def rectB : Rect := ⟨2, 8, 20, 80⟩

/-- A panel showing `rectB` as its current zoom while its undo history is
empty — the state `update_plot` produces when it re-applies a remembered
zoom to a freshly rebuilt panel. -/
def panelZoomedNoHistory : FigureWidget :=
  { panelAuto with
      current_zoom_limits := some rectB,
      axes := [((2, 8), (80, 20))] }

/-- The panel of the well a gesture is released on: mid-drag state. -/
def panelMidDrag : FigureWidget :=
  { panelAuto with
      dragging := true,
      press_event := some (0, 0),
      rect_active := true,
      listeners := [ZoomHandler.single] }

/-- A second, idle panel. -/
def panelOther : FigureWidget :=
  { panelAuto with well_name := "W2" }

/-- Two-panel viewer in Single mode, mid-drag on `"W1"`. -/
def viewerSingle : Viewer :=
  { figure_widgets := [panelMidDrag, panelOther] }

/-- Two-panel viewer in Synchronized mode, mid-drag on `"W1"`. -/
def viewerSync : Viewer :=
  { figure_widgets :=
      [{ panelMidDrag with listeners := [ZoomHandler.sync] },
       { panelOther with listeners := [ZoomHandler.sync] }] }

/-- Single-mode viewer with an active single-well zoom rect, about to have
sync zoom toggled on. -/
def viewerWithSingleRect : Viewer :=
  { figure_widgets := [panelMidDrag, panelOther],
    single_zoom_limits := some rectA,
    current_single_zoom_well := some "W1" }

/-- Viewer with two checked wells of depth extents `[0,100]` and
`[50,200]` — the spec's shared-Y example. -/
def viewerTwoWells : Viewer :=
  { figure_widgets := [panelAuto, panelOther],
    wells := [("W1", [0, 100]), ("W2", [50, 200])],
    well_list := [("W1", true), ("W2", true)] }

/-- Well tops of the spec's correlation scenario: `W1` has `TopA@500` and
`TopB@700`. -/
def topsW1 : List (String × Int) := [("TopA", 500), ("TopB", 700)]

/-- Well `W2` has only `TopA@520`. -/
def topsW2 : List (String × Int) := [("TopA", 520)]

/-- A viewer that already holds a well named `"WellA"`. -/
def viewerLoaded : Viewer :=
  { wells := [("WellA", [1, 2, 3])], well_list := [("WellA", false)] }

/-- A concrete stand-in for Python `float()`: parses `"5"`, rejects
everything else. -/
def parseDemo : String → Option Int :=
  fun s => if s = "5" then some 5 else none

/-! ## Theorems -/

/-- C2: applying `rectA` then `rectB` to a panel through the zoom handlers'
`applyZoom`-then-`recordCurrentZoom` sequence leaves the undo stack holding
`[rectA, rectB]` — the rect just applied, not the one current before it —
so the first `undoZoom` re-applies `rectB` (the panel's limits do not
return to `rectA`), the second yields `rectA`, and only the third returns
to the auto-fit limits.  This contradicts the claim that the first undo
yields `rectA` and the second the auto-fit limits: `recordCurrentZoom` runs
after `applyZoom` has already overwritten `current_zoom_limits`. -/
theorem undo_after_two_zooms_returns_latest :
    (((((panelAuto.applyZoom rectA).recordCurrentZoom).applyZoom
        rectB).recordCurrentZoom).zoom_history = [rectA, rectB]) ∧
    ((((((panelAuto.applyZoom rectA).recordCurrentZoom).applyZoom
        rectB).recordCurrentZoom).undoZoom).1.current_zoom_limits = some rectB) ∧
    ((((((panelAuto.applyZoom rectA).recordCurrentZoom).applyZoom
        rectB).recordCurrentZoom).undoZoom).1.axes = [((2, 8), (80, 20))]) ∧
    (((((((panelAuto.applyZoom rectA).recordCurrentZoom).applyZoom
        rectB).recordCurrentZoom).undoZoom).1.undoZoom).1.current_zoom_limits
      = some rectA) ∧
    rectA ≠ rectB := by
  decide

/-- C3: a click without drag (press and release both at data point
`(5, 7)`) is *not* rejected: `onMouseRelease` records the degenerate rect
`(5, 5, 7, 7)` as the current zoom and emits the `zoomChanged` signal
(triggering the redraw and the zoom handlers), contradicting the claim
that nothing is recorded and no notification is triggered. -/
theorem degenerate_click_records_and_emits :
    (((panelAuto.onMousePress ⟨true, 5, 7⟩).onMouseRelease ⟨true, 5, 7⟩).2 = true) ∧
    (((panelAuto.onMousePress ⟨true, 5, 7⟩).onMouseRelease
        ⟨true, 5, 7⟩).1.current_zoom_limits = some ⟨5, 5, 7, 7⟩) := by
  decide

/-- C8 counterexample: on a panel whose undo history is empty but whose
auto-fit limits were captured and whose current limits differ from them,
`undoZoom` is *not* a no-op — it falls back to `resetZoom`, changing the
axes limits and clearing the current zoom. -/
theorem undo_empty_history_not_noop :
    panelZoomedNoHistory.zoom_history = [] ∧
    (panelZoomedNoHistory.undoZoom).1 ≠ panelZoomedNoHistory := by
  decide

/-- C8 (amended): `undoZoom` on an empty history never raises; it is a
strict no-op exactly when no auto-fit limits were captured (Python-falsy
`_initial_limits`), and otherwise resets the panel to the auto-fit state
via `resetZoom`; in both cases it returns `false`. -/
theorem undo_empty_history_cases (w : FigureWidget) (h : w.zoom_history = []) :
    (limitsTruthy w.initial_limits = false → w.undoZoom = (w, false)) ∧
    (limitsTruthy w.initial_limits = true → w.undoZoom = (w.resetZoom, false)) := by
  have hl : w.zoom_history.getLast? = none := by rw [h]; rfl
  constructor <;> intro ht <;> simp [FigureWidget.undoZoom, hl, ht]

/-- Witness for `undo_empty_history_cases` at `panelZoomedNoHistory`. -/
theorem undo_empty_history_cases_witness :
    panelZoomedNoHistory.undoZoom = (panelZoomedNoHistory.resetZoom, false) :=
  (undo_empty_history_cases panelZoomedNoHistory rfl).2 rfl

/-- Restoring the stored initial limits is idempotent on the axes list. -/
theorem restoreInitial_idem (axes : List AxLimits) :
    ∀ L : List AxLimits, restoreInitial (restoreInitial axes L) L = restoreInitial axes L := by
  induction axes with
  | nil => intro L; simp [restoreInitial]
  | cons a as ih =>
    intro L
    cases L with
    | nil => simp [restoreInitial]
    | cons l ls =>
      have step : ∀ (b : AxLimits) (bs : List AxLimits),
          restoreInitial (b :: bs) (l :: ls) = l :: restoreInitial bs ls := by
        intro b bs
        simp [restoreInitial]
      rw [step, step, ih]

/-- Panel-level `FigureWidget.resetZoom` is idempotent. -/
theorem widget_resetZoom_idem (w : FigureWidget) :
    (w.resetZoom).resetZoom = w.resetZoom := by
  cases hi : w.initial_limits with
  | none => simp [FigureWidget.resetZoom, hi]
  | some L =>
    by_cases hL : L.isEmpty
    · simp [FigureWidget.resetZoom, hi, hL]
    · simp [FigureWidget.resetZoom, hi, hL, restoreInitial_idem]

/-- Viewer-level `Viewer.resetZoom` is idempotent. -/
theorem viewer_resetZoom_idem (v : Viewer) :
    (v.resetZoom).resetZoom = v.resetZoom := by
  by_cases hs : v.sync_zoom_enabled
  · simp [Viewer.resetZoom, hs, List.map_map, Function.comp,
      widget_resetZoom_idem]
  · cases hc : v.current_single_zoom_well with
    | none => simp [Viewer.resetZoom, hs, hc]
    | some name => simp [Viewer.resetZoom, Viewer.updateWidget, hs, hc]

/-- C7: `reset()` is idempotent, both on a single panel
(`FigureWidget.resetZoom`) and at the viewer level
(`WellLogViewer.resetZoom`): a second consecutive reset leaves exactly the
state of the first. -/
theorem reset_twice_eq_reset_once :
    (∀ w : FigureWidget, (w.resetZoom).resetZoom = w.resetZoom) ∧
    (∀ v : Viewer, (v.resetZoom).resetZoom = v.resetZoom) :=
  ⟨widget_resetZoom_idem, viewer_resetZoom_idem⟩

/-- C10: first load wins and identifiers stay unique.  Loading a well whose
name is already a key of the store leaves the viewer (store and well list)
completely unchanged, and any load preserves uniqueness of the well names
in the store. -/
theorem load_first_wins_preserves_unique (v : Viewer) (name : String) (data : List Int) :
    (name ∈ v.wells.map Prod.fst → v.load_las_file name data = v) ∧
    ((v.wells.map Prod.fst).Nodup →
      ((v.load_las_file name data).wells.map Prod.fst).Nodup) := by
  constructor
  · intro h
    simp [Viewer.load_las_file, h]
  · intro h
    by_cases hc : name ∈ v.wells.map Prod.fst
    · simp [Viewer.load_las_file, hc, h]
    · simp [Viewer.load_las_file, hc, List.nodup_append, h]

/-- Witness for `load_first_wins_preserves_unique`: re-loading `"WellA"`
into `viewerLoaded` changes nothing, and names stay unique. -/
theorem load_first_wins_preserves_unique_witness :
    (viewerLoaded.load_las_file "WellA" [7] = viewerLoaded) ∧
    ((viewerLoaded.load_las_file "WellA" [7]).wells.map Prod.fst).Nodup :=
  ⟨(load_first_wins_preserves_unique viewerLoaded "WellA" [7]).1 (by decide),
   (load_first_wins_preserves_unique viewerLoaded "WellA" [7]).2 (by decide)⟩

/-- C9: the manual axis-limit text fields are guarded: when the text does
not parse as a number (Python `float` raising `ValueError`, modelled by
`parse` returning `none`) — or is empty and therefore skipped — the prior
limits stay in effect; when a nonempty text parses, only the corresponding
bound is replaced.  The conjunction also covers the composed block: two
unparsable texts leave the limits exactly as they were. -/
theorem invalid_numeric_input_ignored (parse : String → Option Int)
    (tmin tmax : String) (ylim : Int × Int) (v : Int) :
    (parse tmin = none → applyBoundMin parse tmin ylim = ylim) ∧
    (parse tmax = none → applyBoundMax parse tmax ylim = ylim) ∧
    (tmin ≠ "" → parse tmin = some v → applyBoundMin parse tmin ylim = (v, ylim.2)) ∧
    (tmax ≠ "" → parse tmax = some v → applyBoundMax parse tmax ylim = (ylim.1, v)) ∧
    (parse tmin = none → parse tmax = none →
      applyTrackYLimits parse tmin tmax ylim = ylim) := by
  refine ⟨fun h => ?_, fun h => ?_, fun ht h => ?_, fun ht h => ?_, fun h1 h2 => ?_⟩
  · by_cases ht : tmin = "" <;> simp [applyBoundMin, ht, h]
  · by_cases ht : tmax = "" <;> simp [applyBoundMax, ht, h]
  · simp [applyBoundMin, ht, h]
  · simp [applyBoundMax, ht, h]
  · by_cases ht1 : tmin = "" <;> by_cases ht2 : tmax = "" <;>
      simp [applyTrackYLimits, applyBoundMin, applyBoundMax, ht1, ht2, h1, h2]

/-- Witness for `invalid_numeric_input_ignored` with `parseDemo` as the
parser: `"abc"` is ignored, `"5"` replaces only the lower bound. -/
theorem invalid_numeric_input_ignored_witness :
    (applyBoundMin parseDemo "abc" (0, 100) = (0, 100)) ∧
    (applyBoundMin parseDemo "5" (0, 100) = (5, 100)) ∧
    (applyTrackYLimits parseDemo "abc" "x2" (0, 100) = (0, 100)) :=
  ⟨(invalid_numeric_input_ignored parseDemo "abc" "" (0, 100) 0).1 (by decide),
   (invalid_numeric_input_ignored parseDemo "5" "" (0, 100) 5).2.2.1
     (by decide) (by decide),
   (invalid_numeric_input_ignored parseDemo "abc" "x2" (0, 100) 0).2.2.2.2
     (by decide) (by decide)⟩

/-- Membership in `linksFor` characterised: a link `(t, dA, dB)` is drawn
exactly when `t` is a selected top name present in both wells' top lists
and `dA`, `dB` are its (dict-semantics, last-occurrence) depths. -/
theorem mem_linksFor (A B : List (String × Int)) (S : List String)
    (t : String) (dA dB : Int) :
    (t, dA, dB) ∈ linksFor A B S ↔
      (t ∈ (selTops A S).map Prod.fst ∧ t ∈ (selTops B S).map Prod.fst ∧
        dictGet (selTops A S) t = some dA ∧ dictGet (selTops B S) t = some dB) := by
  unfold linksFor
  rw [List.mem_filterMap]
  constructor
  · rintro ⟨x, hx, hfx⟩
    cases hA : dictGet (selTops A S) x <;> cases hB : dictGet (selTops B S) x <;>
      rw [hA, hB] at hfx <;> simp at hfx
    obtain ⟨rfl, rfl, rfl⟩ := hfx
    simp only [commonTops, List.mem_filter] at hx
    refine ⟨hx.1, ?_, hA, hB⟩
    simpa using hx.2
  · rintro ⟨h1, h2, h3, h4⟩
    refine ⟨t, ?_, ?_⟩
    · simp only [commonTops, List.mem_filter]
      exact ⟨h1, by simpa using h2⟩
    · rw [h3, h4]

/-- C5: well-top correlation links are order-symmetric.  For all wells'
top lists and every selected-name set, `(t, dA, dB)` is a link of the pair
`(A, B)` exactly when `(t, dB, dA)` is a link of `(B, A)`: swapping the
wells swaps the per-well depth components and preserves the matched set of
top names. -/
theorem links_symmetric (A B : List (String × Int)) (S : List String)
    (t : String) (dA dB : Int) :
    (t, dA, dB) ∈ linksFor A B S ↔ (t, dB, dA) ∈ linksFor B A S := by
  rw [mem_linksFor, mem_linksFor]
  tauto

/-- Witness for `links_symmetric` on the spec's scenario: `TopA` matches
at depths `500`/`520`; swapping the wells swaps the depths. -/
theorem links_symmetric_witness :
    (("TopA", 500, 520) ∈ linksFor topsW1 topsW2 ["TopA"]) ∧
    (("TopA", 520, 500) ∈ linksFor topsW2 topsW1 ["TopA"]) :=
  ⟨by decide,
   (links_symmetric topsW1 topsW2 ["TopA"] "TopA" 500 520).mp (by decide)⟩

/-- A nonempty depth column has a minimum. -/
theorem listMin_of_ne_nil (l : List Int) (h : l ≠ []) : ∃ m, listMin l = some m := by
  cases l with
  | nil => exact absurd rfl h
  | cons a as => exact ⟨as.foldl min a, rfl⟩

/-- A nonempty depth column has a maximum. -/
theorem listMax_of_ne_nil (l : List Int) (h : l ≠ []) : ∃ m, listMax l = some m := by
  cases l with
  | nil => exact absurd rfl h
  | cons a as => exact ⟨as.foldl max a, rfl⟩

/-- The `synchronizeYAxisLimits` accumulation loop, started from finite
bounds `(m, M)`, produces the least lower / greatest upper bound of `m`,
`M` and the processed wells' depth extents, and each resulting bound is
attained (at the seed or at some processed well). -/
theorem foldl_stepShared_spec (wells : List (String × List Int)) :
    ∀ (S : List String) (m M : Int),
    (∀ n ∈ S, dataOf wells n ≠ []) →
    ∃ ymin ymax,
      S.foldl (stepShared wells) (some m, some M) = (some ymin, some ymax) ∧
      ymin ≤ m ∧ M ≤ ymax ∧
      (∀ n ∈ S, ∀ lo, listMin (dataOf wells n) = some lo → ymin ≤ lo) ∧
      (∀ n ∈ S, ∀ hi, listMax (dataOf wells n) = some hi → hi ≤ ymax) ∧
      (ymin = m ∨ ∃ n ∈ S, listMin (dataOf wells n) = some ymin) ∧
      (ymax = M ∨ ∃ n ∈ S, listMax (dataOf wells n) = some ymax) := by
  intro S
  induction S with
  | nil =>
    intro m M _
    exact ⟨m, M, rfl, le_refl m, le_refl M, by simp, by simp, Or.inl rfl, Or.inl rfl⟩
  | cons n S' ih =>
    intro m M h
    have hn : dataOf wells n ≠ [] := h n (List.mem_cons_self n S')
    obtain ⟨lo, hlo⟩ := listMin_of_ne_nil _ hn
    obtain ⟨hi, hhi⟩ := listMax_of_ne_nil _ hn
    have hstep : stepShared wells (some m, some M) n = (some (min m lo), some (max M hi)) := by
      simp [stepShared, omin, omax, hlo, hhi]
    rw [List.foldl_cons, hstep]
    obtain ⟨ymin, ymax, heq, h1, h2, hminb, hmaxb, hat1, hat2⟩ :=
      ih (min m lo) (max M hi) (fun n' hn' => h n' (List.mem_cons_of_mem _ hn'))
    refine ⟨ymin, ymax, heq, le_trans h1 (min_le_left _ _),
      le_trans (le_max_left _ _) h2, ?_, ?_, ?_, ?_⟩
    · intro n' hn' lo' hlo'
      rcases List.mem_cons.mp hn' with rfl | hmem
      · have he : lo' = lo := by rw [hlo] at hlo'; exact (Option.some_inj.mp hlo').symm
        exact he ▸ le_trans h1 (min_le_right m lo)
      · exact hminb n' hmem lo' hlo'
    · intro n' hn' hi' hhi'
      rcases List.mem_cons.mp hn' with rfl | hmem
      · have he : hi' = hi := by rw [hhi] at hhi'; exact (Option.some_inj.mp hhi').symm
        exact he ▸ le_trans (le_max_right M hi) h2
      · exact hmaxb n' hmem hi' hhi'
    · rcases hat1 with he | ⟨n', hn', hn'eq⟩
      · rcases min_choice m lo with hm | hm
        · exact Or.inl (he.trans hm)
        · exact Or.inr ⟨n, List.mem_cons_self n S', by rw [hlo, he, hm]⟩
      · exact Or.inr ⟨n', List.mem_cons_of_mem _ hn', hn'eq⟩
    · rcases hat2 with he | ⟨n', hn', hn'eq⟩
      · rcases max_choice M hi with hm | hm
        · exact Or.inl (he.trans hm)
        · exact Or.inr ⟨n, List.mem_cons_self n S', by rw [hhi, he, hm]⟩
      · exact Or.inr ⟨n', List.mem_cons_of_mem _ hn', hn'eq⟩

/-- Evaluating `computeSharedY` on a nonempty selection of nonempty wells yields
exactly the minimum of the depth minima and the maximum of the depth
maxima. -/
theorem computeSharedY_spec (wells : List (String × List Int)) (S : List String)
    (hS : S ≠ []) (hdata : ∀ n ∈ S, dataOf wells n ≠ []) :
    ∃ ymin ymax, computeSharedY wells S = (some ymin, some ymax) ∧
      (∀ n ∈ S, ∀ lo, listMin (dataOf wells n) = some lo → ymin ≤ lo) ∧
      (∀ n ∈ S, ∀ hi, listMax (dataOf wells n) = some hi → hi ≤ ymax) ∧
      (∃ n ∈ S, listMin (dataOf wells n) = some ymin) ∧
      (∃ n ∈ S, listMax (dataOf wells n) = some ymax) := by
  cases S with
  | nil => exact absurd rfl hS
  | cons n S' =>
    have hn : dataOf wells n ≠ [] := hdata n (List.mem_cons_self n S')
    obtain ⟨lo, hlo⟩ := listMin_of_ne_nil _ hn
    obtain ⟨hi, hhi⟩ := listMax_of_ne_nil _ hn
    have hstep : stepShared wells (none, none) n = (some lo, some hi) := by
      simp [stepShared, omin, omax, hlo, hhi]
    unfold computeSharedY
    rw [List.foldl_cons, hstep]
    obtain ⟨ymin, ymax, heq, h1, h2, hminb, hmaxb, hat1, hat2⟩ :=
      foldl_stepShared_spec wells S' lo hi
        (fun n' hn' => hdata n' (List.mem_cons_of_mem _ hn'))
    refine ⟨ymin, ymax, heq, ?_, ?_, ?_, ?_⟩
    · intro n' hn' lo' hlo'
      rcases List.mem_cons.mp hn' with rfl | hmem
      · have he : lo' = lo := by rw [hlo] at hlo'; exact (Option.some_inj.mp hlo').symm
        exact he ▸ h1
      · exact hminb n' hmem lo' hlo'
    · intro n' hn' hi' hhi'
      rcases List.mem_cons.mp hn' with rfl | hmem
      · have he : hi' = hi := by rw [hhi] at hhi'; exact (Option.some_inj.mp hhi').symm
        exact he ▸ h2
      · exact hmaxb n' hmem hi' hhi'
    · rcases hat1 with he | ⟨n', hn', hn'eq⟩
      · exact ⟨n, List.mem_cons_self n S', by rw [hlo, he]⟩
      · exact ⟨n', List.mem_cons_of_mem _ hn', hn'eq⟩
    · rcases hat2 with he | ⟨n', hn', hn'eq⟩
      · exact ⟨n, List.mem_cons_self n S', by rw [hhi, he]⟩
      · exact ⟨n', List.mem_cons_of_mem _ hn', hn'eq⟩

/-- C4: with Y-axis linking enabled, the shared depth range computed by
`synchronizeYAxisLimits` over the checked wells is the union of their full
depth extents — the minimum of all depth minima (a lower bound on, and
attained by, some well's minimum) and the maximum of all depth maxima —
and it is applied as the `ylim` (inverted, `(y_max, y_min)`) of every
sub-axes of every visible panel. -/
theorem shared_y_range_is_union (v : Viewer)
    (hW : v.figure_widgets ≠ [])
    (hS : v.selectedWells ≠ [])
    (hdata : ∀ n ∈ v.selectedWells, dataOf v.wells n ≠ []) :
    ∃ y_min y_max,
      computeSharedY v.wells v.selectedWells = (some y_min, some y_max) ∧
      (∀ n ∈ v.selectedWells, ∀ lo, listMin (dataOf v.wells n) = some lo → y_min ≤ lo) ∧
      (∀ n ∈ v.selectedWells, ∀ hi, listMax (dataOf v.wells n) = some hi → hi ≤ y_max) ∧
      (∃ n ∈ v.selectedWells, listMin (dataOf v.wells n) = some y_min) ∧
      (∃ n ∈ v.selectedWells, listMax (dataOf v.wells n) = some y_max) ∧
      (∀ w ∈ (v.synchronizeYAxisLimits).figure_widgets, ∀ ax ∈ w.axes,
        ax.2 = (y_max, y_min)) := by
  obtain ⟨ymin, ymax, heq, hb1, hb2, ha1, ha2⟩ :=
    computeSharedY_spec v.wells v.selectedWells hS hdata
  refine ⟨ymin, ymax, heq, hb1, hb2, ha1, ha2, ?_⟩
  intro w hw ax hax
  have hne : v.figure_widgets.isEmpty = false := by
    cases hfw : v.figure_widgets with
    | nil => exact absurd hfw hW
    | cons a l => rfl
  rw [Viewer.synchronizeYAxisLimits, hne, heq] at hw
  simp only [Bool.false_eq_true, if_false] at hw
  obtain ⟨u, _, rfl⟩ := List.mem_map.mp hw
  obtain ⟨ax0, _, rfl⟩ := List.mem_map.mp hax
  rfl

/-- Witness for `shared_y_range_is_union`: wells with depth extents
`[0,100]` and `[50,200]` give the shared range `[0,200]`, applied to every
panel as `ylim = (200, 0)`. -/
theorem shared_y_range_is_union_witness :
    (computeSharedY viewerTwoWells.wells viewerTwoWells.selectedWells
      = (some 0, some 200)) ∧
    (∀ w ∈ (viewerTwoWells.synchronizeYAxisLimits).figure_widgets,
      ∀ ax ∈ w.axes, ax.2 = ((200 : Int), (0 : Int))) := by
  refine ⟨by decide, ?_⟩
  obtain ⟨ymin, ymax, heq, _, _, _, _, happ⟩ :=
    shared_y_range_is_union viewerTwoWells (by decide) (by decide) (by decide)
  have h0 : computeSharedY viewerTwoWells.wells viewerTwoWells.selectedWells
      = (some 0, some 200) := by decide
  rw [h0] at heq
  have e1 : (0 : Int) = ymin := Option.some_inj.mp (congrArg Prod.fst heq)
  have e2 : (200 : Int) = ymax := Option.some_inj.mp (congrArg Prod.snd heq)
  intro w hw ax hax
  rw [← e1, ← e2] at happ
  exact happ w hw ax hax

/-- C6: toggling sync zoom on while a single-well zoom rect is active
promotes that rect to the synchronized zoom rect, re-applies it to every
visible panel (current zoom and all axes limits), and leaves no panel with
a Single-mode `zoomChanged` listener connected. -/
theorem sync_toggle_promotes_single_zoom (v : Viewer) (r : Rect)
    (h : v.single_zoom_limits = some r) :
    ((v.onSyncZoomToggled true).sync_zoom_limits = some r) ∧
    (∀ w ∈ (v.onSyncZoomToggled true).figure_widgets,
      w.current_zoom_limits = some r ∧
      (∀ ax ∈ w.axes, ax = zoomLimitsOf r) ∧
      ZoomHandler.single ∉ w.listeners) := by
  simp only [Viewer.onSyncZoomToggled, Viewer.disableSingleZoom, Viewer.enableSyncZoom,
    FigureWidget.setZoomMode, h, if_true, List.map_map]
  refine ⟨trivial, ?_⟩
  intro w hw
  simp only [List.mem_map, Function.comp] at hw
  obtain ⟨u, _, rfl⟩ := hw
  refine ⟨rfl, ?_, ?_⟩
  · intro ax hax
    simp only [FigureWidget.recordCurrentZoom, FigureWidget.applyZoom, List.mem_map] at hax
    obtain ⟨ax0, _, rfl⟩ := hax
    rfl
  · intro hmem
    simp only [FigureWidget.recordCurrentZoom, FigureWidget.applyZoom,
      List.mem_append, List.mem_filter, List.mem_singleton] at hmem
    rcases hmem with ⟨_, hne⟩ | hs
    · simp at hne
    · exact absurd hs (by simp)

/-- Witness for `sync_toggle_promotes_single_zoom` on
`viewerWithSingleRect`. -/
theorem sync_toggle_promotes_single_zoom_witness :
    ((viewerWithSingleRect.onSyncZoomToggled true).sync_zoom_limits = some rectA) ∧
    (∀ w ∈ (viewerWithSingleRect.onSyncZoomToggled true).figure_widgets,
      w.current_zoom_limits = some rectA ∧
      (∀ ax ∈ w.axes, ax = zoomLimitsOf rectA) ∧
      ZoomHandler.single ∉ w.listeners) :=
  sync_toggle_promotes_single_zoom viewerWithSingleRect rectA rfl

/-- If the widget dict finds `w0` under key `s`, then after replacing every
widget keyed `s` by `w1` (itself keyed `s`), the dict finds `w1`. -/
theorem find?_map_update (l : List FigureWidget) (s : String) (w0 w1 : FigureWidget)
    (hf : l.find? (fun w => w.well_name = s) = some w0)
    (h1 : w1.well_name = s) :
    (l.map (fun w => if w.well_name = s then w1 else w)).find?
      (fun w => w.well_name = s) = some w1 := by
  induction l with
  | nil => simp at hf
  | cons a as ih =>
    by_cases ha : a.well_name = s
    · simp [List.find?_cons, ha, h1]
    · have hpa : ¬(decide (a.well_name = s) = true) := by simpa using ha
      rw [List.map_cons, if_neg ha,
        List.find?_cons_of_neg (p := fun w : FigureWidget => decide (w.well_name = s)) _ hpa]
      rw [List.find?_cons_of_neg (p := fun w : FigureWidget => decide (w.well_name = s)) _ hpa] at hf
      exact ih hf

/-- C1: mode decides the scope of a zoom gesture.  For a valid drag-release
gesture on well `sender`'s panel producing rect `R = gestureRect x0 y0 x1 y1`:
with the Single-mode listener connected only the sender's panel changes
(every other panel's state, including its axis limits, is exactly as
before) and the sender's panel shows `R`; with the Synchronized-mode
listener connected, every visible panel ends with the identical current
zoom `R` and identical axes limits derived from `R`. -/
theorem zoom_gesture_single_vs_sync (v : Viewer) (sender : String)
    (w0 : FigureWidget) (e : MouseEvent) (x0 y0 : Int)
    (hfind : v.findWidget sender = some w0)
    (hdrag : w0.dragging = true)
    (hpress : w0.press_event = some (x0, y0))
    (hrect : w0.rect_active = true)
    (hin : e.inaxes = true) :
    (w0.listeners = [ZoomHandler.single] →
      ((v.onZoomGesture sender e).figure_widgets.length = v.figure_widgets.length ∧
       (∀ i (hi : i < v.figure_widgets.length),
         (v.figure_widgets[i]).well_name ≠ sender →
         (v.onZoomGesture sender e).figure_widgets[i]? = some v.figure_widgets[i]) ∧
       (∀ w ∈ (v.onZoomGesture sender e).figure_widgets, w.well_name = sender →
         w.current_zoom_limits = some (gestureRect x0 y0 e.xdata e.ydata) ∧
         ∀ ax ∈ w.axes, ax = zoomLimitsOf (gestureRect x0 y0 e.xdata e.ydata)))) ∧
    (w0.listeners = [ZoomHandler.sync] →
      ∀ w ∈ (v.onZoomGesture sender e).figure_widgets,
        w.current_zoom_limits = some (gestureRect x0 y0 e.xdata e.ydata) ∧
        ∀ ax ∈ w.axes, ax = zoomLimitsOf (gestureRect x0 y0 e.xdata e.ydata)) := by
  have hname : w0.well_name = sender := by
    have h := List.find?_some hfind
    simpa using h
  have hrel : w0.onMouseRelease e =
      ({ w0 with
          current_zoom_limits := some (gestureRect x0 y0 e.xdata e.ydata),
          rect_active := false, dragging := false, press_event := none }, true) := by
    simp [FigureWidget.onMouseRelease, hpress, hdrag, hin, hrect, gestureRect]
  have hgest : v.onZoomGesture sender e =
      (v.updateWidget sender (fun _ =>
        { w0 with
            current_zoom_limits := some (gestureRect x0 y0 e.xdata e.ydata),
            rect_active := false, dragging := false,
            press_event := none })).emitZoomChanged sender := by
    simp [Viewer.onZoomGesture, hfind, hrel]
  have hfind2 : (v.updateWidget sender (fun _ =>
      { w0 with
          current_zoom_limits := some (gestureRect x0 y0 e.xdata e.ydata),
          rect_active := false, dragging := false,
          press_event := none })).findWidget sender =
      some { w0 with
          current_zoom_limits := some (gestureRect x0 y0 e.xdata e.ydata),
          rect_active := false, dragging := false,
          press_event := none } := by
    unfold Viewer.updateWidget Viewer.findWidget
    exact find?_map_update v.figure_widgets sender w0 _ hfind hname
  constructor
  · intro hl
    rw [hl] at hgest hfind2
    rw [hgest]
    simp only [Viewer.emitZoomChanged, hfind2, List.foldl_cons, List.foldl_nil]
    simp only [Viewer.handleSingleZoom, hfind2, Option.some_bind]
    refine ⟨?_, ?_, ?_⟩
    · simp [Viewer.updateWidget]
    · intro i hi hne
      simp only [Viewer.updateWidget, List.getElem?_map, List.getElem?_eq_getElem hi,
        Option.map_some]
      simp [hne]
    · intro w hw hwname
      simp only [Viewer.updateWidget, List.map_map, List.mem_map, Function.comp] at hw
      obtain ⟨u, hu, rfl⟩ := hw
      by_cases hus : u.well_name = sender
      · simp [hus, hname, FigureWidget.applyZoom, FigureWidget.recordCurrentZoom,
          zoomLimitsOf, List.mem_map]
      · simp only [if_neg hus] at hwname ⊢
        exact absurd hwname hus
  · intro hl
    rw [hl] at hgest hfind2
    rw [hgest]
    simp only [Viewer.emitZoomChanged, hfind2, List.foldl_cons, List.foldl_nil]
    simp only [Viewer.handleSyncZoom, hfind2, Option.some_bind]
    intro w hw
    simp only [Viewer.updateWidget, List.map_map, List.mem_map, Function.comp] at hw
    obtain ⟨u, hu, rfl⟩ := hw
    constructor
    · simp [FigureWidget.applyZoom, FigureWidget.recordCurrentZoom]
    · intro ax hax
      simp only [FigureWidget.recordCurrentZoom, FigureWidget.applyZoom,
        List.mem_map] at hax
      obtain ⟨ax0, _, rfl⟩ := hax
      rfl


/-- Witness for `zoom_gesture_single_vs_sync`: on a two-panel viewer, a
gesture from `(0,0)` to `(4,6)` on `"W1"` leaves panel `"W2"` untouched in
Single mode, and in Synchronized mode gives every panel the current zoom
`(0, 4, 0, 6)`. -/
theorem zoom_gesture_single_vs_sync_witness :
    ((viewerSingle.onZoomGesture "W1" ⟨true, 4, 6⟩).figure_widgets[1]? =
      some panelOther) ∧
    (∀ w ∈ (viewerSync.onZoomGesture "W1" ⟨true, 4, 6⟩).figure_widgets,
      w.current_zoom_limits = some (gestureRect 0 0 4 6)) := by
  constructor
  · have h := (zoom_gesture_single_vs_sync viewerSingle "W1" panelMidDrag
      ⟨true, 4, 6⟩ 0 0 rfl rfl rfl rfl rfl).1 rfl
    exact h.2.1 1 (by decide) (by decide)
  · intro w hw
    exact ((zoom_gesture_single_vs_sync viewerSync "W1"
      { panelMidDrag with listeners := [ZoomHandler.sync] } ⟨true, 4, 6⟩ 0 0
      rfl rfl rfl rfl rfl).2 rfl w hw).1

end WellLog
